import Mathlib

/-!
# dxpm: identity resolution, dependency installation and manifest synchronisation

A shallow embedding of `salesforce/sfdx.go` (with the record types of
`types_org.go`, `types_package.go` and `types_sfdx.go`).

* Go strings are Lean `String`s. `strings.Compare` is byte-wise; on the valid
  UTF-8 text that `encoding/json` produces this is the code-point order of
  Lean's `<` on `String`.
* The package-level variables (`orgs`, `scrOrgs`, `projectPath`, `pkgVersions`,
  `installedPkgs`) are fields of the run state `St`, together with the part of
  the outside world the program changes (installed packages per environment,
  the files it rewrites) and the log of `sfdx` subprocess invocations.
* What the outside world answers is the fixed parameter `Env`: each
  JSON query of `sfdxJ` followed by `json.Unmarshal` is one typed response
  or an error.
* A Go function with an `error` result is a state transformer returning
  `Res`: normal return, returned error, run-time panic, or exhausted fuel for
  the unbounded recursion of `InstallPackage`.
-/

namespace Dxpm

/-! ## Constants of `sfdx.go` -/

def defaultMarker : String := "(D)"
def packagePrefix : String := "0Ho"
def versionPrefix : String := "04t"
def orgPrefix : String := "00D"
def projectFileName : String := "sfdx-project.json"
def managedPackageType : String := "Managed"

/-! ## The functions of package `strings` the program uses -/

/-- Go `strings.HasPrefix s p`: does `s` begin with `p`. -/
def HasPrefix (s p : String) : Bool := p.data.isPrefixOf s.data

/-- Is the character list `sub` found somewhere in `cs`. -/
def containsChars (sub : List Char) : List Char → Bool
  | [] => sub.isPrefixOf []
  | c :: cs => sub.isPrefixOf (c :: cs) || containsChars sub cs

/-- Go `strings.Contains s sub`. -/
def Contains (s sub : String) : Bool := containsChars sub.data s.data

/-- The loop of Go `genSplit` for a non-empty separator: `skip` counts the
characters of a separator occurrence still to be dropped, `acc` holds the
current piece in reverse. -/
def splitChars (sep : List Char) : List Char → Nat → List Char → List (List Char)
  | [], _, acc => [acc.reverse]
  | _ :: cs, skip + 1, acc => splitChars sep cs skip acc
  | c :: cs, 0, acc =>
    if sep.isPrefixOf (c :: cs) then acc.reverse :: splitChars sep cs (sep.length - 1) []
    else splitChars sep cs 0 (c :: acc)

/-- Go `strings.Compare a b`: 0 if `a == b`, -1 if `a < b`, +1 otherwise. -/
def Compare (a b : String) : Int :=
  if a = b then 0 else if a.data < b.data then -1 else 1

/-- Go `strings.Split s sep`: the substrings of `s` between the occurrences
of `sep`; with an empty `sep`, the characters of `s`. -/
def Split (s sep : String) : List String :=
  if sep.data = [] then s.data.map (fun c => String.mk [c])
  else (splitChars sep.data s.data 0 []).map String.mk

/-! ## Record types -/

/-- Persistent environment (`Org` of `types_org.go`). -/
structure Org where
  UserName : String
  OrgID : String
  AccessToken : String
  IsDevHub : Bool
  Alias : String
  DefaultMarker : String
deriving DecidableEq, Repr

/-- Ephemeral environment (`ScratchOrg` of `types_org.go`). -/
structure ScratchOrg where
  UserName : String
  OrgID : String
  DevHubOrgID : String
  AccessToken : String
  Alias : String
  Status : String
  IsExpired : Bool
  ExpirationDate : String
deriving DecidableEq, Repr

/-- Result part of `orgListResponse`. -/
structure OrgListResult where
  NonScratchOrgs : List Org
  ScratchOrgs : List ScratchOrg
deriving DecidableEq, Repr

/-- Package version of the version list (`PkgVersion` of `types_package.go`). -/
structure PkgVersion where
  Name : String
  ID : String
  PackageID : String
  VersionName : String
  Version : String
deriving DecidableEq, Repr

/-- Record of the tooling query on `SubscriberPackageVersion`; `Dependencies`
holds the `subscriberPackageVersionId` of each entry of `Dependencies.Ids`. -/
structure SubscriberPkgVersion where
  ID : String
  Name : String
  PackageID : String
  MajorVersion : Int
  MinorVersion : Int
  PatchVersion : Int
  BuildNumber : Int
  PackageType : String
  Dependencies : List String
deriving DecidableEq, Repr

/-- Record of the tooling query on `SubscriberPackage`. -/
structure SubscriberPkg where
  Name : String
deriving DecidableEq, Repr

/-- Result part of a tooling query response: the `Size` field and the
records. -/
structure SoqlResult (α : Type) where
  Size : Int
  Records : List α

/-- Item of `sfdx force:package:installed:list`. -/
structure InstalledPkg where
  ID : String
  SubscriberPackageID : String
  SubscriberPackageName : String
  SubscriberPackageVersionID : String
deriving DecidableEq, Repr

/-- Dependency entry of the manifest (`SfdxProjectDependency`). -/
structure SfdxProjectDependency where
  PackageName : String
deriving DecidableEq, Repr

/-- Element of `SfdxProject.PackageDirectories`. -/
structure PackageDirectory where
  Path : String
  Default : Bool
  PackageName : String
  VersionName : String
  VersionNumber : String
  Dependencies : List SfdxProjectDependency
deriving DecidableEq, Repr

/-- Go `map[string]string` as a lookup function; the nil map is `none` at the
place where the map is held. -/
abbrev StrMap := String → Option String

/-- The manifest `sfdx-project.json` as decoded into `SfdxProject`;
`PackageAliases = none` is the nil map of an absent `packageAliases` field. -/
structure SfdxProject where
  PackageDirectories : List PackageDirectory
  Namespace : String
  SfdcLoginURL : String
  SourceAPIVersion : String
  PackageAliases : Option StrMap

/-! ## Outcomes, outside world and run state -/

/-- How a call of a Go function with an `error` result ends. -/
inductive Res (α : Type) where
  | ok : α → Res α
  | err : String → Res α
  | panicked : String → Res α
  | outOfFuel : Res α
deriving DecidableEq, Repr

/-- One `sfdx` subprocess invocation. -/
inductive Call where
  | orgList
  | versionList
  | soqlVersion (org id : String)
  | soqlPackage (org id : String)
  | installedList (org : String)
  | install (pkg org : String)
  | uninstall (pkg org : String)
deriving DecidableEq, Repr

/-- What the outside world answers during one run. -/
structure Env where
  /-- Does `exec.LookPath("sfdx")` succeed. -/
  sfdxOnPath : Bool
  /-- Result of `os.Getwd` followed by `findSfdxProject`: the manifest path
  found upward of the working directory, or the error of the search (a failing
  `os.Getwd`, a panic in the source, is not distinguished). -/
  projectSearch : Except String String
  /-- Decoded response of `force:org:list`. -/
  orgList : Except String OrgListResult
  /-- Decoded response of `force:package:version:list`. -/
  versionList : Except String (List PkgVersion)
  /-- Decoded response of the `SubscriberPackageVersion` query. -/
  soqlVersion : String → String → Except String (SoqlResult SubscriberPkgVersion)
  /-- Decoded response of the `SubscriberPackage` query; a record is the
  outcome of re-encoding it and decoding it as `SubscriberPkg`. -/
  soqlPackage : String → String → Except String (SoqlResult (Except String SubscriberPkg))
  /-- Error of `force:package:installed:list` for an environment, if any. -/
  installedListError : String → Option String
  /-- Error of `force:package:install` for a package and environment, if any. -/
  installError : String → String → Option String
  /-- The record `force:package:installed:list` shows for a version once it
  is installed in an environment. -/
  installRecord : String → String → InstalledPkg
  /-- Error of `force:package:uninstall` for a package and environment, if any. -/
  uninstallError : String → String → Option String
  /-- Error of `ioutil.WriteFile` for a path, if any. -/
  writeError : String → Option String

/-- Package-level variables of `sfdx.go` and the mutable outside world. -/
structure St where
  orgs : List Org
  scrOrgs : List ScratchOrg
  projectPath : String
  pkgVersions : List PkgVersion
  installedPkgs : List InstalledPkg
  /-- Packages installed in each environment (by login username). -/
  installed : String → List InstalledPkg
  /-- Result of `ioutil.ReadFile` followed by `json.Unmarshal` for a path. -/
  files : String → Except String SfdxProject
  /-- The `sfdx` invocations so far, oldest first. -/
  trace : List Call

/-- State transformer with outcome: the state is kept when a call fails, as
actions already performed stay performed. -/
def M (α : Type) : Type := St → Res α × St

/-- Normal return. -/
def M.pure {α : Type} (a : α) : M α := fun s => (Res.ok a, s)

/-- Sequencing: `if err != nil { return err }` after each call. -/
def M.bind {α β : Type} (m : M α) (f : α → M β) : M β := fun s =>
  match m s with
  | (Res.ok a, s1) => f a s1
  | (Res.err msg, s1) => (Res.err msg, s1)
  | (Res.panicked msg, s1) => (Res.panicked msg, s1)
  | (Res.outOfFuel, s1) => (Res.outOfFuel, s1)

instance : Monad M where
  pure := M.pure
  bind := M.bind

/-- Return a non-nil error. -/
def fail {α : Type} (msg : String) : M α := fun s => (Res.err msg, s)

/-- Run-time panic. -/
def goPanic {α : Type} (msg : String) : M α := fun s => (Res.panicked msg, s)

/-- Append an `sfdx` invocation to the log. -/
def logCall (c : Call) : M Unit := fun s => (Res.ok (), { s with trace := s.trace ++ [c] })

/-- Lift a decoded response. -/
def liftExcept {α : Type} : Except String α → M α
  | Except.ok a => M.pure a
  | Except.error msg => fail msg

/-! ## Identity resolver -/

/-- `CheckCli`. -/
def CheckCli (e : Env) : M Unit :=
  if e.sfdxOnPath then pure () else fail "SFDX CLI not found on %PATH%"

/-- `CheckSFDX`: the manifest path is searched once and kept in `projectPath`. -/
def CheckSFDX (e : Env) : M Unit := fun s =>
  if s.projectPath.length > 0 then (Res.ok (), s)
  else match e.projectSearch with
    | Except.error msg => (Res.err msg, s)
    | Except.ok p => (Res.ok (), { s with projectPath := p })

/-- `getOrgs`. -/
def getOrgs (e : Env) : M Unit := fun s =>
  if s.orgs.length > 0 then (Res.ok (), s)
  else
    (do
      CheckCli e
      logCall Call.orgList
      let resp ← liftExcept e.orgList
      fun s1 => (Res.ok (), { s1 with orgs := resp.NonScratchOrgs, scrOrgs := resp.ScratchOrgs })) s

/-- First loop of `getOrgUserID`, over the persistent environments. -/
def orgLoop (isID : Bool) (als : String) : List Org → Option String
  | [] => none
  | org :: rest =>
    if isID && org.OrgID == als then some org.UserName
    else if !isID && org.Alias == als then some org.UserName
    else orgLoop isID als rest

/-- Second loop of `getOrgUserID`, over the ephemeral environments. -/
def scrOrgLoop (isID : Bool) (als : String) : List ScratchOrg → Option String
  | [] => none
  | org :: rest =>
    if isID && org.OrgID == als then some org.UserName
    else if !isID && org.Alias == als then some org.UserName
    else scrOrgLoop isID als rest

/-- `getOrgUserID`. -/
def getOrgUserID (e : Env) (als : String) : M String :=
  if Contains als "@" then pure als
  else do
    getOrgs e
    let isID := HasPrefix als orgPrefix
    fun s =>
      match orgLoop isID als s.orgs with
      | some u => (Res.ok u, s)
      | none =>
        match scrOrgLoop isID als s.scrOrgs with
        | some u => (Res.ok u, s)
        | none => (Res.err ("Failed to locate org with alias: " ++ als), s)

/-- `getPkgVersions`. -/
def getPkgVersions (e : Env) : M Unit := fun s =>
  if s.pkgVersions.length > 0 then (Res.ok (), s)
  else
    (do
      CheckCli e
      logCall Call.versionList
      let resp ← liftExcept e.versionList
      fun s1 => (Res.ok (), { s1 with pkgVersions := resp })) s

/-- The loop of `getPkgVersionID` and the code after it; `versionNum` and
`versionID` are the running maximum and its identifier. -/
def pkgVersionLoop (isID : Bool) (als version : String) :
    List PkgVersion → String → String → Res String
  | [], _, versionID =>
    if versionID != "" then Res.ok versionID
    else Res.err ("Failed to locate package version with alias: " ++ als)
  | ver :: rest, versionNum, versionID =>
    if isID && ver.PackageID == als then Res.ok ver.ID
    else if !isID && ver.Name == als then
      if version != "LATEST" && ver.Version == version then Res.ok ver.ID
      else if Compare ver.Version versionNum == 1 then
        pkgVersionLoop isID als version rest ver.Version ver.ID
      else pkgVersionLoop isID als version rest versionNum versionID
    else pkgVersionLoop isID als version rest versionNum versionID

/-- `getPkgVersionID`. The source calls `strings.Split("@", alias)`, the
string `"@"` split at the separator `alias`, and takes element 1. -/
def getPkgVersionID (e : Env) (als : String) : M String := do
  getPkgVersions e
  let isID := HasPrefix als packagePrefix
  let version ←
    if !isID && Contains als "@" then
      match (Split "@" als).get? 1 with
      | some v => pure v
      | none => goPanic "index out of range [1]"
    else pure "LATEST"
  fun s => (pkgVersionLoop isID als version s.pkgVersions "0" "", s)

/-- `getPkgVersion`. -/
def getPkgVersion (e : Env) (ID : String) : M PkgVersion := do
  getPkgVersions e
  fun s =>
    match s.pkgVersions.find? (fun ver => ver.ID == ID) with
    | some ver => (Res.ok ver, s)
    | none => (Res.err ("Failed to locate package version: " ++ ID), s)

/-! ## External gateway queries and actions -/

/-- `getSubscriberPkg`. -/
def getSubscriberPkg (e : Env) (org ID : String) : M SubscriberPkg := do
  logCall (Call.soqlPackage org ID)
  let response ← liftExcept (e.soqlPackage org ID)
  if response.Size != 1 then
    goPanic ("More than 1 Subscriber Package with ID: " ++ ID)
  else
    match response.Records with
    | [] => goPanic "index out of range [0]"
    | record :: _ => liftExcept record

/-- `getSubscriberPkgVersion`. -/
def getSubscriberPkgVersion (e : Env) (org ID : String) : M SubscriberPkgVersion := do
  logCall (Call.soqlVersion org ID)
  let response ← liftExcept (e.soqlVersion org ID)
  if response.Size != 1 then
    goPanic ("More than 1 Subscriber Package Version with ID: " ++ ID)
  else
    match response.Records with
    | [] => goPanic "index out of range [0]"
    | pkv :: _ => do
      let pkg ← getSubscriberPkg e org pkv.PackageID
      pure { pkv with Name := pkg.Name }

/-- `getInstalledPackages`: the list of the environment is queried while the
cached list is empty. -/
def getInstalledPackages (e : Env) (org : String) : M Unit := fun s =>
  if s.installedPkgs.length > 0 then (Res.ok (), s)
  else
    (do
      CheckCli e
      logCall (Call.installedList org)
      match e.installedListError org with
      | some msg => fail msg
      | none => fun s1 => (Res.ok (), { s1 with installedPkgs := s1.installed org })) s

/-- `isPkgInstalled`: an error of `getInstalledPackages` is a panic. -/
def isPkgInstalled (e : Env) (org pkgVersionID : String) : M Bool := fun s =>
  match getInstalledPackages e org s with
  | (Res.ok _, s1) =>
    (Res.ok (s1.installedPkgs.any (fun pkg => pkg.SubscriberPackageVersionID == pkgVersionID)), s1)
  | (Res.err msg, s1) => (Res.panicked msg, s1)
  | (Res.panicked msg, s1) => (Res.panicked msg, s1)
  | (Res.outOfFuel, s1) => (Res.outOfFuel, s1)

/-- The call `sfdx("force:package:install", "--package", pkg, "-u", org, "-w 100")`:
on success the environment holds the record of the installed version. -/
def sfdxInstall (e : Env) (pkg org : String) : M Unit := do
  logCall (Call.install pkg org)
  match e.installError pkg org with
  | some msg => fail msg
  | none => fun s =>
    (Res.ok (),
      { s with
        installed := fun o =>
          if o = org then s.installed o ++ [e.installRecord pkg org] else s.installed o })

/-- The call `sfdx("force:package:uninstall", "--package", pkg, "-u", org)`:
on success the environment no longer holds a record of the version. -/
def sfdxUninstall (e : Env) (pkg org : String) : M Unit := do
  logCall (Call.uninstall pkg org)
  match e.uninstallError pkg org with
  | some msg => fail msg
  | none => fun s =>
    (Res.ok (),
      { s with
        installed := fun o =>
          if o = org then (s.installed o).filter (fun r => r.SubscriberPackageVersionID != pkg)
          else s.installed o })

/-! ## Manifest synchroniser -/

/-- `ioutil.ReadFile(projectPath)` followed by `json.Unmarshal`. -/
def readProject : M SfdxProject := fun s =>
  match s.files s.projectPath with
  | Except.ok proj => (Res.ok proj, s)
  | Except.error msg => (Res.err msg, s)

/-- `json.MarshalIndent` followed by `ioutil.WriteFile(projectPath, ...)`. -/
def writeProject (e : Env) (proj : SfdxProject) : M Unit := fun s =>
  match e.writeError s.projectPath with
  | some msg => (Res.err msg, s)
  | none =>
    (Res.ok (), { s with files := fun p => if p = s.projectPath then Except.ok proj else s.files p })

/-- The search loop of `upsertDependencyToProjectFile`: the first entry with
the package name. -/
def findDep (name : String) : List SfdxProjectDependency → Option SfdxProjectDependency
  | [] => none
  | dep :: rest => if dep.PackageName == name then some dep else findDep name rest

/-- `upsertDependencyToProjectFile`. -/
def upsertDependencyToProjectFile (e : Env) (org pkgVersionID : String) : M Unit := do
  let proj ← readProject
  let pkgVersion ← getSubscriberPkgVersion e org pkgVersionID
  match proj.PackageDirectories with
  | [] => goPanic "index out of range [0]"
  | dir :: dirs =>
    let (pkgDep, deps) :=
      match findDep pkgVersion.Name dir.Dependencies with
      | some dep => (dep, dir.Dependencies)
      | none =>
        let pkgDep : SfdxProjectDependency := { PackageName := pkgVersion.Name }
        (pkgDep, dir.Dependencies ++ [pkgDep])
    match proj.PackageAliases with
    | none => goPanic "assignment to entry in nil map"
    | some aliases =>
      writeProject e
        { proj with
          PackageDirectories := { dir with Dependencies := deps } :: dirs,
          PackageAliases :=
            some (fun k => if k = pkgDep.PackageName then some pkgVersionID else aliases k) }

/-- The loop of `removeDependencyFromProjectFile`: `ranged` is the slice the
`range` clause was evaluated to, `deps` the dependency list being appended to. -/
def removeLoop (name : String) :
    List SfdxProjectDependency → List SfdxProjectDependency → List SfdxProjectDependency
  | [], deps => deps
  | ver :: ranged, deps =>
    if ver.PackageName == name then removeLoop name ranged deps
    else removeLoop name ranged (deps ++ [ver])

/-- `removeDependencyFromProjectFile`. The source first assigns
`make([]SfdxProjectDependency, 0, len(...))` to the dependency list of the
first package directory and then ranges over that same field. -/
def removeDependencyFromProjectFile (e : Env) (pkgVersionID : String) : M Unit := do
  let proj ← readProject
  let pkgVersion ← getPkgVersion e pkgVersionID
  let pkgDep : SfdxProjectDependency := { PackageName := pkgVersion.Name }
  match proj.PackageDirectories with
  | [] => goPanic "index out of range [0]"
  | dir :: dirs =>
    let dir1 : PackageDirectory := { dir with Dependencies := [] }
    let dir2 : PackageDirectory :=
      { dir1 with Dependencies := removeLoop pkgDep.PackageName dir1.Dependencies dir1.Dependencies }
    writeProject e
      { proj with
        PackageDirectories := dir2 :: dirs,
        PackageAliases :=
          proj.PackageAliases.map (fun aliases k => if k = pkgDep.PackageName then none else aliases k) }

/-! ## Install and uninstall orchestrator -/

/-- The loop of `InstallDependencies`. -/
def installEach (install : String → String → M Unit) (org : String) : List String → M Unit
  | [] => pure ()
  | dep :: rest => do
    install org dep
    installEach install org rest

/-- `InstallDependencies`, with the recursive callee `InstallPackage` as a
parameter. -/
def InstallDependencies (InstallPackage : String → String → M Unit) (e : Env)
    (org pkg : String) : M Unit := do
  let mainPkg ← getSubscriberPkgVersion e org pkg
  installEach InstallPackage org mainPkg.Dependencies

/-- `InstallPackage`; the first argument bounds the depth of the recursion
through `InstallDependencies`, which the source leaves unbounded. -/
def InstallPackage (e : Env) : Nat → String → String → M Unit
  | 0, _, _ => fun s => (Res.outOfFuel, s)
  | fuel + 1, org, pkg => do
    CheckCli e
    CheckSFDX e
    let org ← getOrgUserID e org
    let pkg ← if !HasPrefix pkg versionPrefix then getPkgVersionID e pkg else pure pkg
    InstallDependencies (InstallPackage e fuel) e org pkg
    let installed ← isPkgInstalled e org pkg
    if !installed then sfdxInstall e pkg org else pure ()
    upsertDependencyToProjectFile e org pkg

/-- `UninstallPackage`. -/
def UninstallPackage (e : Env) (org pkg : String) : M Unit := do
  CheckCli e
  CheckSFDX e
  let org ← getOrgUserID e org
  let pkg ← if !HasPrefix pkg versionPrefix then getPkgVersionID e pkg else pure pkg
  sfdxUninstall e pkg org
  removeDependencyFromProjectFile e pkg

/-! ## Notions of the specification -/

/-- An environment with identifier `orgID` and alias `al` matches the input
when the input starts with `00D` and equals the identifier, or does not start
with `00D` and equals the alias. -/
def envMatches (input orgID al : String) : Bool :=
  (HasPrefix input orgPrefix && orgID == input) || (!HasPrefix input orgPrefix && al == input)

/-- The packages of the `force:package:install` invocations of a log, in
order. -/
def installsOf : List Call → List String
  | [] => []
  | Call.install pkg _ :: rest => pkg :: installsOf rest
  | _ :: rest => installsOf rest

/-- Number of `force:org:list` invocations of a log. -/
def orgListCalls (tr : List Call) : Nat := tr.count Call.orgList

/-- The manifest stored at `projectPath`, if it reads and decodes. -/
def manifestAt (s : St) : Option SfdxProject :=
  match s.files s.projectPath with
  | Except.ok proj => some proj
  | Except.error _ => none

/-- Dependency list of the first package directory of a manifest (empty when
there is no package directory). -/
def firstDeps (proj : SfdxProject) : List SfdxProjectDependency :=
  match proj.PackageDirectories with
  | [] => []
  | dir :: _ => dir.Dependencies

/-- Lookup of a key in the alias table of a manifest (no entry in a nil
map). -/
def aliasOf (proj : SfdxProject) (k : String) : Option String :=
  match proj.PackageAliases with
  | none => none
  | some aliases => aliases k

/-- Manifest consistency: the package names of the dependency list of the first
package directory are exactly the keys of the alias table. -/
def Consistent (proj : SfdxProject) : Prop :=
  ∀ k : String, (∃ dep ∈ firstDeps proj, dep.PackageName = k) ↔ (aliasOf proj k).isSome = true

/-- Dependency list of the first package directory of the manifest stored at
`projectPath`. -/
def manifestDeps (s : St) : Option (List SfdxProjectDependency) :=
  (manifestAt s).map firstDeps

/-- Alias-table entry for a key in the manifest stored at `projectPath`. -/
def manifestAlias (s : St) (k : String) : Option String :=
  (manifestAt s).bind (fun proj => aliasOf proj k)

/-! ## Dependency graph and run conditions -/

/-- The dependencies of a package walked one after the other in their listed
order, each from the list of installed versions the one before left. -/
def walkEach (walk : List String → String → List String) :
    List String → List String → List String
  | installed, [] => installed
  | installed, d :: rest => walkEach walk (walk installed d) rest

/-- The depth-first walk of the specification (Dependency Graph Walker and
steps 4 to 6 of Install): from the list of installed versions, first every
dependency of `X` is walked, in listed order, then `X` is installed last unless
it is installed already. The result is the list of installed versions in the
order of their installation; the first argument bounds the depth. -/
def walk (deps : String → List String) : Nat → List String → String → List String
  | 0, installed, _ => installed
  | fuel + 1, installed, X =>
    let installed1 := walkEach (walk deps fuel) installed (deps X)
    if X ∈ installed1 then installed1 else installed1 ++ [X]

/-- Sample manifest: one package directory that depends on package `B`. -/
def demoProject : SfdxProject :=
  { PackageDirectories :=
      [{ Path := "force-app", Default := true, PackageName := "app", VersionName := "v1",
         VersionNumber := "1.0.0.NEXT", Dependencies := [{ PackageName := "B" }] }],
    Namespace := "", SfdcLoginURL := "https://login.salesforce.com", SourceAPIVersion := "45.0",
    PackageAliases := some (fun k => if k = "B" then some "04tB1" else none) }

/-- Sample version list of the specification: `A` in versions `1.0` and `2.0`,
`B` in version `1.0`. -/
def demoVersions : List PkgVersion :=
  [{ Name := "A", ID := "04tA1", PackageID := "0HoA", VersionName := "first", Version := "1.0" },
   { Name := "A", ID := "04tA2", PackageID := "0HoA", VersionName := "second", Version := "2.0" },
   { Name := "B", ID := "04tB1", PackageID := "0HoB", VersionName := "first", Version := "1.0" }]

/-- Record of the `SubscriberPackageVersion` query for a version with the
given owning package and dependencies. -/
def demoRecord (id pkgID : String) (deps : List String) : SubscriberPkgVersion :=
  { ID := id, Name := "", PackageID := pkgID, MajorVersion := 1, MinorVersion := 0,
    PatchVersion := 0, BuildNumber := 1, PackageType := "Managed", Dependencies := deps }

/-- Dependency lists of the sample graph: `P` depends on `D1` and `D2`, `D1`
on `D3`; version `A1` of package `A` and version `B1` of `B` have no
dependencies. -/
def demoDeps (id : String) : Option (List String) :=
  if id = "04tP" then some ["04tD1", "04tD2"]
  else if id = "04tD1" then some ["04tD3"]
  else if id = "04tD2" then some []
  else if id = "04tD3" then some []
  else if id = "04tA1" then some []
  else if id = "04tB1" then some []
  else none

/-- Sample persistent environment with alias `dev`. -/
def demoHub : Org :=
  { UserName := "admin@hub.org", OrgID := "00Dhub", AccessToken := "", IsDevHub := true,
    Alias := "dev", DefaultMarker := "(D)" }

/-- Sample ephemeral environment, also with alias `dev`. -/
def demoScratch : ScratchOrg :=
  { UserName := "test@scratch.org", OrgID := "00Dscr", DevHubOrgID := "00Dhub",
    AccessToken := "", Alias := "dev", Status := "Active", IsExpired := false,
    ExpirationDate := "2019-01-01" }

/-- Sample outside world in which every call succeeds. -/
def demoEnv : Env :=
  { sfdxOnPath := true,
    projectSearch := Except.ok "/work/sfdx-project.json",
    orgList := Except.ok
      { NonScratchOrgs := [demoHub], ScratchOrgs := [demoScratch] },
    versionList := Except.ok demoVersions,
    soqlVersion := fun _ id =>
      match demoDeps id with
      | some deps => Except.ok { Size := 1, Records := [demoRecord id ("033" ++ id) deps] }
      | none => Except.ok { Size := 0, Records := [] },
    soqlPackage := fun _ id =>
      Except.ok { Size := 1, Records := [Except.ok { Name := if id = "03304tA1" then "A" else id }] },
    installedListError := fun _ => none,
    installError := fun _ _ => none,
    installRecord := fun pkg _ =>
      { ID := "0A3" ++ pkg, SubscriberPackageID := "033" ++ pkg, SubscriberPackageName := "",
        SubscriberPackageVersionID := pkg },
    uninstallError := fun _ _ => none,
    writeError := fun _ => none }

/-- State at the start of a run in the sample world: nothing cached, no
package installed, the sample manifest on disk. -/
def demoStart : St :=
  { orgs := [], scrOrgs := [], projectPath := "", pkgVersions := [], installedPkgs := [],
    installed := fun _ => [],
    files := fun p =>
      if p = "/work/sfdx-project.json" then Except.ok demoProject else Except.error "no such file",
    trace := [] }

/-- State of a run in the sample world once the manifest is located and the
environment and version lists are cached. -/
def demoCached : St :=
  { demoStart with
    orgs := [demoHub],
    scrOrgs := [demoScratch],
    projectPath := "/work/sfdx-project.json",
    pkgVersions := demoVersions }

/-- State with a cached version list whose only entry for package `A` has
the version string `0`. -/
def floorVersions : St :=
  { demoCached with
    pkgVersions :=
      [{ Name := "A", ID := "04tA0", PackageID := "0HoA", VersionName := "initial",
         Version := "0" }] }

/-- Sample manifest whose first package directory depends on `A` and `B`,
both with an alias-table entry. -/
def demoProjectAB : SfdxProject :=
  { demoProject with
    PackageDirectories :=
      [{ Path := "force-app", Default := true, PackageName := "app", VersionName := "v1",
         VersionNumber := "1.0.0.NEXT",
         Dependencies := [{ PackageName := "A" }, { PackageName := "B" }] }],
    PackageAliases :=
      some (fun k => if k = "A" then some "04tA1" else if k = "B" then some "04tB1" else none) }

/-- Like `demoCached`, with the manifest `demoProjectAB` on disk. -/
def demoCachedAB : St :=
  { demoCached with
    files := fun p =>
      if p = "/work/sfdx-project.json" then Except.ok demoProjectAB
      else Except.error "no such file" }

/-- Start of a run in the sample world in which version `04tB1` is installed
in the environment `admin@hub.org` beforehand. -/
def demoStartWithB : St :=
  { demoStart with
    installed := fun o =>
      if o = "admin@hub.org" then [demoEnv.installRecord "04tB1" "admin@hub.org"] else [] }

/-- Sample world whose graph shares a dependency that is not the first one
installed: `P` depends on `D1` and `D2`, `D1` on `D3` and `D4`, `D2` on
`D4`. -/
def diamondEnv : Env :=
  { demoEnv with
    soqlVersion := fun _ id =>
      if id = "04tP" then
        Except.ok { Size := 1, Records := [demoRecord id ("033" ++ id) ["04tD1", "04tD2"]] }
      else if id = "04tD1" then
        Except.ok { Size := 1, Records := [demoRecord id ("033" ++ id) ["04tD3", "04tD4"]] }
      else if id = "04tD2" then
        Except.ok { Size := 1, Records := [demoRecord id ("033" ++ id) ["04tD4"]] }
      else if id = "04tD3" then
        Except.ok { Size := 1, Records := [demoRecord id ("033" ++ id) []] }
      else if id = "04tD4" then
        Except.ok { Size := 1, Records := [demoRecord id ("033" ++ id) []] }
      else Except.ok { Size := 0, Records := [] } }

/-! ## Sequences of resolutions, manifests without directories or aliases -/

/-- A sequence of `getOrgUserID` calls within one run, one per input, each
from the state the call before left; whether a call returns a username or an
error, the next one follows. -/
def resolveEach (e : Env) : List String → St → St
  | [], s => s
  | input :: rest, s => resolveEach e rest (getOrgUserID e input s).2

/-- Sample world whose `force:org:list` answers with no persistent
environment and one ephemeral environment. -/
def scratchOnlyEnv : Env :=
  { demoEnv with
    orgList := Except.ok { NonScratchOrgs := [], ScratchOrgs := [demoScratch] } }

/-- Sample manifest of a project without packages yet: one package directory
with no dependencies, no `packageAliases` field (a nil map once decoded). -/
def demoProjectNoAliases : SfdxProject :=
  { PackageDirectories :=
      [{ Path := "force-app", Default := true, PackageName := "", VersionName := "",
         VersionNumber := "", Dependencies := [] }],
    Namespace := "", SfdcLoginURL := "https://login.salesforce.com", SourceAPIVersion := "45.0",
    PackageAliases := none }

/-- Sample manifest whose `packageDirectories` list is empty. -/
def demoProjectNoDirs : SfdxProject :=
  { demoProject with PackageDirectories := [] }

/-- Like `demoCached`, with the manifest `demoProjectNoAliases` on disk. -/
def demoCachedNoAliases : St :=
  { demoCached with
    files := fun p =>
      if p = "/work/sfdx-project.json" then Except.ok demoProjectNoAliases
      else Except.error "no such file" }

/-- Like `demoCached`, with the manifest `demoProjectNoDirs` on disk. -/
def demoCachedNoDirs : St :=
  { demoCached with
    files := fun p =>
      if p = "/work/sfdx-project.json" then Except.ok demoProjectNoDirs
      else Except.error "no such file" }

/-! ## Sequencing lemmas -/

theorem bind_apply {α β : Type} (m : M α) (f : α → M β) (s : St) :
    (m >>= f) s = M.bind m f s := rfl

theorem bind_of_ok {α β : Type} {m : M α} {f : α → M β} {s s1 : St} {a : α}
    (h : m s = (Res.ok a, s1)) : (m >>= f) s = f a s1 := by
  simp [bind_apply, M.bind, h]

theorem orgLoop_eq_find_aux (b : Bool) (input : String) (l : List Org) :
    orgLoop b input l =
      (l.find? (fun o => (b && o.OrgID == input) || (!b && o.Alias == input))).map
        (fun o => o.UserName) := by
  cases b <;> induction l with
  | nil => rfl
  | cons o rest ih =>
    by_cases h1 : o.OrgID = input <;> by_cases h2 : o.Alias = input <;>
      simp_all [orgLoop, List.find?_cons]

theorem scrOrgLoop_eq_find_aux (b : Bool) (input : String) (l : List ScratchOrg) :
    scrOrgLoop b input l =
      (l.find? (fun o => (b && o.OrgID == input) || (!b && o.Alias == input))).map
        (fun o => o.UserName) := by
  cases b <;> induction l with
  | nil => rfl
  | cons o rest ih =>
    by_cases h1 : o.OrgID = input <;> by_cases h2 : o.Alias = input <;>
      simp_all [scrOrgLoop, List.find?_cons]

theorem orgLoop_eq_find (input : String) (l : List Org) :
    orgLoop (HasPrefix input orgPrefix) input l =
      (l.find? (fun o => envMatches input o.OrgID o.Alias)).map (fun o => o.UserName) :=
  orgLoop_eq_find_aux _ _ _

theorem scrOrgLoop_eq_find (input : String) (l : List ScratchOrg) :
    scrOrgLoop (HasPrefix input orgPrefix) input l =
      (l.find? (fun o => envMatches input o.OrgID o.Alias)).map (fun o => o.UserName) :=
  scrOrgLoop_eq_find_aux _ _ _

/-- C5: for an input without `@`, with `s1` the state holding the cached
environment lists (the state `getOrgs` leaves), `getOrgUserID` returns the
login username of the earliest matching persistent environment if there is
one, otherwise that of the earliest matching ephemeral environment if there is
one, and otherwise an error; the state it leaves is `s1`. -/
theorem getOrgUserID_first_match (e : Env) (s s1 : St) (input : String)
    (hat : Contains input "@" = false)
    (hcache : getOrgs e s = (Res.ok (), s1)) :
    (∀ o, s1.orgs.find? (fun o => envMatches input o.OrgID o.Alias) = some o →
        getOrgUserID e input s = (Res.ok o.UserName, s1)) ∧
    (s1.orgs.find? (fun o => envMatches input o.OrgID o.Alias) = none →
      ∀ o, s1.scrOrgs.find? (fun o => envMatches input o.OrgID o.Alias) = some o →
        getOrgUserID e input s = (Res.ok o.UserName, s1)) ∧
    (s1.orgs.find? (fun o => envMatches input o.OrgID o.Alias) = none →
      s1.scrOrgs.find? (fun o => envMatches input o.OrgID o.Alias) = none →
        getOrgUserID e input s =
          (Res.err ("Failed to locate org with alias: " ++ input), s1)) := by
  have hrun : getOrgUserID e input s =
      (match orgLoop (HasPrefix input orgPrefix) input s1.orgs with
        | some u => (Res.ok u, s1)
        | none =>
          match scrOrgLoop (HasPrefix input orgPrefix) input s1.scrOrgs with
          | some u => (Res.ok u, s1)
          | none => (Res.err ("Failed to locate org with alias: " ++ input), s1)) := by
    unfold getOrgUserID
    rw [if_neg (by simp [hat])]
    exact bind_of_ok hcache
  rw [hrun, orgLoop_eq_find, scrOrgLoop_eq_find]
  refine ⟨?_, ?_, ?_⟩
  · intro o ho
    simp [ho]
  · intro hn o ho
    simp [hn, ho]
  · intro hn hn2
    simp [hn, hn2]

/-- Witness of C5: alias `dev` names both a persistent and an ephemeral
environment of the cached lists; the persistent one is returned. -/
theorem getOrgUserID_first_match_witness :
    getOrgUserID demoEnv "dev" demoCached = (Res.ok "admin@hub.org", demoCached) :=
  (getOrgUserID_first_match demoEnv demoCached demoCached "dev" (by decide!) rfl).1 demoHub
    (by decide!)

/-- C10: an input containing `@` is returned unchanged and without error, and
the state is left as it was: no `force:org:list` invocation is logged and the
cached environment lists are the same. -/
theorem getOrgUserID_username_form (e : Env) (s : St) (input : String)
    (hat : Contains input "@" = true) :
    getOrgUserID e input s = (Res.ok input, s) ∧
      orgListCalls (getOrgUserID e input s).2.trace = orgListCalls s.trace ∧
      (getOrgUserID e input s).2.orgs = s.orgs ∧
      (getOrgUserID e input s).2.scrOrgs = s.scrOrgs := by
  have h : getOrgUserID e input s = (Res.ok input, s) := by
    unfold getOrgUserID
    rw [if_pos hat]
    rfl
  rw [h]
  exact ⟨rfl, rfl, rfl, rfl⟩

/-- Witness of C10, at the start of a run with nothing cached. -/
theorem getOrgUserID_username_form_witness :
    Contains "admin@hub.org" "@" = true ∧
      getOrgUserID demoEnv "admin@hub.org" demoStart = (Res.ok "admin@hub.org", demoStart) :=
  ⟨by decide!, (getOrgUserID_username_form demoEnv demoStart "admin@hub.org" (by decide!)).1⟩

/-! ## Resolve Package Version -/

theorem compare_eq_one_iff (a b : String) : (Compare a b == 1) = true ↔ b < a := by
  unfold Compare
  by_cases h : a = b
  · subst h; simp
  · by_cases h2 : a.data < b.data
    · have h3 : a < b := String.lt_iff_toList_lt.mpr h2
      simp [h, h2, not_lt_of_lt h3]
    · have h3 : ¬ a < b := fun hlt => h2 (String.lt_iff_toList_lt.mp hlt)
      have h4 : b < a := lt_of_le_of_ne (not_lt.mp h3) (Ne.symm h)
      simp [h, h2, h4]

theorem pkgVersionLoop_latest (als : String) :
    ∀ (l : List PkgVersion) (vn vid : String),
      ((∀ v ∈ l, v.Name = als → v.Version ≤ vn) →
        pkgVersionLoop false als "LATEST" l vn vid =
          (if vid != "" then Res.ok vid
            else Res.err ("Failed to locate package version with alias: " ++ als))) ∧
      ((∃ v ∈ l, v.Name = als ∧ vn < v.Version) → (∀ v ∈ l, v.Name = als → v.ID ≠ "") →
        ∃ v ∈ l, v.Name = als ∧ vn < v.Version ∧
          (∀ w ∈ l, w.Name = als → w.Version ≤ v.Version) ∧
          pkgVersionLoop false als "LATEST" l vn vid = Res.ok v.ID) := by
  intro l
  induction l with
  | nil =>
    intro vn vid
    refine ⟨fun _ => rfl, ?_⟩
    rintro ⟨v, hv, _⟩
    simp at hv
  | cons ver rest ih =>
    intro vn vid
    by_cases hname : ver.Name = als
    · by_cases hgt : vn < ver.Version
      · have hstep : pkgVersionLoop false als "LATEST" (ver :: rest) vn vid =
            pkgVersionLoop false als "LATEST" rest ver.Version ver.ID := by
          simp [pkgVersionLoop, hname, (compare_eq_one_iff ver.Version vn).mpr hgt]
        rw [hstep]
        constructor
        · intro hall
          exact absurd (hall ver (List.mem_cons_self _ _) hname) (not_le.mpr hgt)
        · intro _ hids
          by_cases hex : ∃ v ∈ rest, v.Name = als ∧ ver.Version < v.Version
          · obtain ⟨v, hv, hvn, hvgt, hmax, hres⟩ :=
              (ih ver.Version ver.ID).2 hex (fun w hw => hids w (List.mem_cons_of_mem _ hw))
            refine ⟨v, List.mem_cons_of_mem _ hv, hvn, lt_trans hgt hvgt, ?_, hres⟩
            intro w hw hwn
            rcases List.mem_cons.mp hw with rfl | hw
            · exact le_of_lt hvgt
            · exact hmax w hw hwn
          · have hall : ∀ v ∈ rest, v.Name = als → v.Version ≤ ver.Version := by
              intro v hv hvn
              exact not_lt.mp (fun hlt => hex ⟨v, hv, hvn, hlt⟩)
            refine ⟨ver, List.mem_cons_self _ _, hname, hgt, ?_, ?_⟩
            · intro w hw hwn
              rcases List.mem_cons.mp hw with rfl | hw
              · exact le_refl _
              · exact hall w hw hwn
            · rw [(ih ver.Version ver.ID).1 hall]
              simp [hids ver (List.mem_cons_self _ _) hname]
      · have hstep : pkgVersionLoop false als "LATEST" (ver :: rest) vn vid =
            pkgVersionLoop false als "LATEST" rest vn vid := by
          have hc : ¬ ((Compare ver.Version vn == 1) = true) :=
            fun h => hgt ((compare_eq_one_iff ver.Version vn).mp h)
          simp [pkgVersionLoop, hname, hc]
        rw [hstep]
        constructor
        · intro hall
          exact (ih vn vid).1 (fun v hv => hall v (List.mem_cons_of_mem _ hv))
        · rintro ⟨v, hv, hvn, hvgt⟩ hids
          have hvr : v ∈ rest := by
            rcases List.mem_cons.mp hv with rfl | hv
            · exact absurd hvgt hgt
            · exact hv
          obtain ⟨m, hm, hmn, hmgt, hmax, hres⟩ :=
            (ih vn vid).2 ⟨v, hvr, hvn, hvgt⟩ (fun w hw => hids w (List.mem_cons_of_mem _ hw))
          refine ⟨m, List.mem_cons_of_mem _ hm, hmn, hmgt, ?_, hres⟩
          intro w hw hwn
          rcases List.mem_cons.mp hw with rfl | hw
          · exact le_trans (not_lt.mp hgt) (le_of_lt hmgt)
          · exact hmax w hw hwn
    · have hstep : pkgVersionLoop false als "LATEST" (ver :: rest) vn vid =
          pkgVersionLoop false als "LATEST" rest vn vid := by
        simp [pkgVersionLoop, hname]
      rw [hstep]
      constructor
      · intro hall
        exact (ih vn vid).1 (fun v hv => hall v (List.mem_cons_of_mem _ hv))
      · rintro ⟨v, hv, hvn, hvgt⟩ hids
        have hvr : v ∈ rest := by
          rcases List.mem_cons.mp hv with rfl | hv
          · exact absurd hvn hname
          · exact hv
        obtain ⟨m, hm, hmn, hmgt, hmax, hres⟩ :=
          (ih vn vid).2 ⟨v, hvr, hvn, hvgt⟩ (fun w hw => hids w (List.mem_cons_of_mem _ hw))
        refine ⟨m, List.mem_cons_of_mem _ hm, hmn, hmgt, ?_, hres⟩
        intro w hw hwn
        rcases List.mem_cons.mp hw with rfl | hw
        · exact absurd hwn hname
        · exact hmax w hw hwn

theorem getPkgVersionID_no_suffix (e : Env) (s s1 : St) (als : String)
    (hat : Contains als "@" = false) (hid : HasPrefix als packagePrefix = false)
    (hcache : getPkgVersions e s = (Res.ok (), s1)) :
    getPkgVersionID e als s = (pkgVersionLoop false als "LATEST" s1.pkgVersions "0" "", s1) := by
  unfold getPkgVersionID
  rw [bind_of_ok hcache]
  simp [hid, hat, bind_apply, M.bind, pure, M.pure]

/-- C3 as stated fails: the cached list has an entry named `A` (version
string `0`, identifier `04tA0`), the alias `A` has no `@` and no `0Ho` prefix,
and `getPkgVersionID` returns an error. -/
theorem getPkgVersionID_latest_counterexample :
    Contains "A" "@" = false ∧ HasPrefix "A" packagePrefix = false ∧
      (∃ v ∈ floorVersions.pkgVersions, v.Name = "A") ∧
      getPkgVersionID demoEnv "A" floorVersions =
        (Res.err "Failed to locate package version with alias: A", floorVersions) := by
  refine ⟨by decide!, by decide!, by decide!, ?_⟩
  rw [getPkgVersionID_no_suffix demoEnv floorVersions floorVersions "A" (by decide!) (by decide!) rfl]
  exact Prod.ext (by decide!) rfl

/-- C3, amended: for an alias without `@` and without the `0Ho` prefix, with
`s1` the state holding the cached version list: if some entry with that name
has a version string greater than `"0"` and the entries with that name have
non-empty identifiers, `getPkgVersionID` returns without error the identifier
of an entry with that name whose version string is greatest (string order)
among all entries with that name; if no entry has that name, it returns an
error. -/
theorem getPkgVersionID_latest (e : Env) (s s1 : St) (als : String)
    (hat : Contains als "@" = false) (hid : HasPrefix als packagePrefix = false)
    (hcache : getPkgVersions e s = (Res.ok (), s1)) :
    ((∃ v ∈ s1.pkgVersions, v.Name = als ∧ "0" < v.Version) →
      (∀ v ∈ s1.pkgVersions, v.Name = als → v.ID ≠ "") →
      ∃ v ∈ s1.pkgVersions, v.Name = als ∧
        (∀ w ∈ s1.pkgVersions, w.Name = als → w.Version ≤ v.Version) ∧
        getPkgVersionID e als s = (Res.ok v.ID, s1)) ∧
    ((∀ v ∈ s1.pkgVersions, v.Name ≠ als) →
      getPkgVersionID e als s =
        (Res.err ("Failed to locate package version with alias: " ++ als), s1)) := by
  rw [getPkgVersionID_no_suffix e s s1 als hat hid hcache]
  constructor
  · intro hex hids
    obtain ⟨v, hv, hvn, _, hmax, hres⟩ := (pkgVersionLoop_latest als s1.pkgVersions "0" "").2 hex hids
    exact ⟨v, hv, hvn, hmax, by rw [hres]⟩
  · intro hnone
    rw [(pkgVersionLoop_latest als s1.pkgVersions "0" "").1
      (fun v hv hvn => absurd hvn (hnone v hv))]
    simp

/-- Witness of C3, amended, on the version list of the specification:
resolving `A` gives the identifier of version `2.0`, resolving `C` fails. -/
theorem getPkgVersionID_latest_witness :
    (∃ v ∈ demoCached.pkgVersions, v.Name = "A" ∧
        (∀ w ∈ demoCached.pkgVersions, w.Name = "A" → w.Version ≤ v.Version) ∧
        getPkgVersionID demoEnv "A" demoCached = (Res.ok v.ID, demoCached)) ∧
      (getPkgVersionID demoEnv "A" demoCached).1 = Res.ok "04tA2" ∧
      getPkgVersionID demoEnv "C" demoCached =
        (Res.err "Failed to locate package version with alias: C", demoCached) :=
  ⟨(getPkgVersionID_latest demoEnv demoCached demoCached "A" (by decide!) (by decide!) rfl).1
      ⟨{ Name := "A", ID := "04tA2", PackageID := "0HoA", VersionName := "second",
          Version := "2.0" },
        by decide!, rfl, String.lt_iff_toList_lt.mpr (by decide!)⟩
      (by decide!),
    by decide!,
    (getPkgVersionID_latest demoEnv demoCached demoCached "C" (by decide!) (by decide!) rfl).2
      (by decide!)⟩

theorem contains_at_ne_nil (als : String) (hat : Contains als "@" = true) : als.data ≠ [] := by
  intro h
  simp [Contains, h, containsChars] at hat

theorem split_at_by (als : String) (h1 : als.data ≠ []) (h2 : als ≠ "@") :
    Split "@" als = ["@"] := by
  obtain ⟨cs⟩ := als
  cases cs with
  | nil => exact absurd rfl h1
  | cons c rest =>
    have hpre : (c :: rest).isPrefixOf ['@'] = false := by
      cases rest with
      | nil =>
        have hc : c ≠ '@' := fun h => h2 (by rw [h])
        simp [List.isPrefixOf, hc]
      | cons d rest2 => simp [List.isPrefixOf]
    have h3 : ("@" : String).data = ['@'] := rfl
    simp only [Split, h3, if_neg h1, splitChars, hpre]
    rfl

/-- C4, what the code does: with `s1` the state holding the cached version
list, for every alias that contains `@`, does not start with `0Ho` and is not
`"@"` itself (so for every `n@v` of the claim with `n` or `v` non-empty),
`getPkgVersionID` panics with an index out of range, whatever the list holds:
`strings.Split("@", alias)` has a single element. -/
theorem getPkgVersionID_suffix_panics (e : Env) (s s1 : St) (als : String)
    (hat : Contains als "@" = true) (hid : HasPrefix als packagePrefix = false)
    (hne : als ≠ "@") (hcache : getPkgVersions e s = (Res.ok (), s1)) :
    getPkgVersionID e als s = (Res.panicked "index out of range [1]", s1) := by
  unfold getPkgVersionID
  rw [bind_of_ok hcache]
  simp [hid, hat, split_at_by als (contains_at_ne_nil als hat) hne, bind_apply, M.bind, goPanic]

/-- Witness of the theorem of C4 on the version list of the specification:
resolving `A@1.0` panics, although the list holds `A` in version `1.0`. -/
theorem getPkgVersionID_suffix_panics_witness :
    (∃ v ∈ demoCached.pkgVersions, v.Name = "A" ∧ v.Version = "1.0") ∧
      getPkgVersionID demoEnv "A@1.0" demoCached =
        (Res.panicked "index out of range [1]", demoCached) :=
  ⟨by decide!,
    getPkgVersionID_suffix_panics demoEnv demoCached demoCached "A@1.0" (by decide!) (by decide!)
      (by decide!) rfl⟩

/-! ## Frame lemmas for the tooling queries -/

theorem getSubscriberPkg_frame (e : Env) (org ID : String) (s : St) :
    (getSubscriberPkg e org ID s).2 = { s with trace := s.trace ++ [Call.soqlPackage org ID] } := by
  unfold getSubscriberPkg
  simp only [bind_apply, M.bind, logCall]
  cases h : e.soqlPackage org ID with
  | error msg => rfl
  | ok response =>
    simp only [liftExcept, M.pure]
    by_cases hs : (response.Size != 1) = true
    · rw [if_pos hs]; rfl
    · rw [if_neg hs]
      cases hr : response.Records with
      | nil => rfl
      | cons record rest =>
        cases record <;> rfl

theorem getSubscriberPkgVersion_frame (e : Env) (org ID : String) (s : St) :
    ∃ tr, (getSubscriberPkgVersion e org ID s).2 = { s with trace := s.trace ++ tr } := by
  unfold getSubscriberPkgVersion
  simp only [bind_apply, M.bind, logCall]
  cases h : e.soqlVersion org ID with
  | error msg => exact ⟨_, rfl⟩
  | ok response =>
    simp only [liftExcept, M.pure]
    by_cases hs : (response.Size != 1) = true
    · rw [if_pos hs]; exact ⟨_, rfl⟩
    · rw [if_neg hs]
      cases hr : response.Records with
      | nil => exact ⟨_, rfl⟩
      | cons pkv rest =>
        simp only [bind_apply, M.bind]
        have hf := getSubscriberPkg_frame e org pkv.PackageID
          { s with trace := s.trace ++ [Call.soqlVersion org ID] }
        refine ⟨[Call.soqlVersion org ID, Call.soqlPackage org pkv.PackageID], ?_⟩
        generalize getSubscriberPkg e org pkv.PackageID
          { s with trace := s.trace ++ [Call.soqlVersion org ID] } = r at hf ⊢
        obtain ⟨res, s2⟩ := r
        simp only at hf
        subst hf
        cases res <;> simp [pure, M.pure]

/-! ## Manifest synchroniser -/

theorem findDep_none_iff (name : String) (l : List SfdxProjectDependency) :
    findDep name l = none ↔ ¬ ∃ dep ∈ l, dep.PackageName = name := by
  induction l with
  | nil => simp [findDep]
  | cons d rest ih =>
    by_cases h : d.PackageName = name
    · simp [findDep, h]
    · simp [findDep, h, ih]

theorem findDep_some_name (name : String) (l : List SfdxProjectDependency)
    (d : SfdxProjectDependency) (h : findDep name l = some d) : d.PackageName = name := by
  induction l with
  | nil => simp [findDep] at h
  | cons x rest ih =>
    by_cases hx : x.PackageName = name
    · simp [findDep, hx] at h
      rw [← h]; exact hx
    · simp [findDep, hx] at h
      exact ih h

/-- The manifest `upsertDependencyToProjectFile` writes for package name
`name` and version identifier `V`. -/
theorem upsert_run (e : Env) (s s1 : St) (org V : String) (proj : SfdxProject)
    (dir : PackageDirectory) (dirs : List PackageDirectory) (aliases : StrMap)
    (pkgVersion : SubscriberPkgVersion)
    (hread : s.files s.projectPath = Except.ok proj)
    (hdirs : proj.PackageDirectories = dir :: dirs)
    (hal : proj.PackageAliases = some aliases)
    (hname : getSubscriberPkgVersion e org V s = (Res.ok pkgVersion, s1))
    (hwrite : e.writeError s.projectPath = none) :
    upsertDependencyToProjectFile e org V s =
      (Res.ok (),
        { s1 with
          files := fun p =>
            if p = s.projectPath then
              Except.ok
                { proj with
                  PackageDirectories :=
                    { dir with
                      Dependencies :=
                        if (∃ dep ∈ dir.Dependencies, dep.PackageName = pkgVersion.Name) then
                          dir.Dependencies
                        else dir.Dependencies ++ [{ PackageName := pkgVersion.Name }] } :: dirs,
                  PackageAliases :=
                    some (fun k => if k = pkgVersion.Name then some V else aliases k) }
            else s.files p }) := by
  obtain ⟨tr, hfr⟩ := getSubscriberPkgVersion_frame e org V s
  rw [hname] at hfr
  simp only at hfr
  have hread1 : readProject s = (Res.ok proj, s) := by
    unfold readProject; rw [hread]
  unfold upsertDependencyToProjectFile
  rw [bind_of_ok hread1, bind_of_ok hname]
  simp only [hdirs, hal]
  have hw : e.writeError s1.projectPath = none := by rw [hfr]; exact hwrite
  cases hf : findDep pkgVersion.Name dir.Dependencies with
  | none =>
    have hno := (findDep_none_iff _ _).mp hf
    simp only [writeProject, hw, if_neg hno]
    rw [hfr]
  | some d =>
    have hd := findDep_some_name _ _ _ hf
    have hex : ∃ dep ∈ dir.Dependencies, dep.PackageName = pkgVersion.Name := by
      by_contra hcon
      rw [(findDep_none_iff _ _).mpr hcon] at hf
      exact absurd hf (by simp)
    simp only [writeProject, hw, if_pos hex, hd]
    rw [hfr]

theorem getPkgVersions_frame (e : Env) (s : St) :
    (getPkgVersions e s).2.files = s.files ∧ (getPkgVersions e s).2.projectPath = s.projectPath := by
  unfold getPkgVersions
  by_cases h : s.pkgVersions.length > 0
  · rw [if_pos h]; exact ⟨rfl, rfl⟩
  · rw [if_neg h]
    simp only [bind_apply, M.bind, CheckCli, logCall]
    cases e.sfdxOnPath <;> cases e.versionList <;> exact ⟨rfl, rfl⟩

theorem getPkgVersion_frame (e : Env) (ID : String) (s : St) :
    (getPkgVersion e ID s).2 = (getPkgVersions e s).2 := by
  unfold getPkgVersion
  simp only [bind_apply, M.bind]
  generalize getPkgVersions e s = r
  obtain ⟨res, s1⟩ := r
  cases res with
  | ok u =>
    simp only
    cases List.find? (fun ver => ver.ID == ID) s1.pkgVersions <;> rfl
  | err msg => rfl
  | panicked msg => rfl
  | outOfFuel => rfl

/-- The manifest `removeDependencyFromProjectFile` writes: whatever the
dependency list of the first package directory held, it is written empty. -/
theorem remove_run (e : Env) (s s1 : St) (V : String) (proj : SfdxProject)
    (dir : PackageDirectory) (dirs : List PackageDirectory) (pkgVersion : PkgVersion)
    (hread : s.files s.projectPath = Except.ok proj)
    (hdirs : proj.PackageDirectories = dir :: dirs)
    (hname : getPkgVersion e V s = (Res.ok pkgVersion, s1))
    (hwrite : e.writeError s.projectPath = none) :
    removeDependencyFromProjectFile e V s =
      (Res.ok (),
        { s1 with
          files := fun p =>
            if p = s.projectPath then
              Except.ok
                { proj with
                  PackageDirectories := { dir with Dependencies := [] } :: dirs,
                  PackageAliases :=
                    proj.PackageAliases.map
                      (fun aliases k => if k = pkgVersion.Name then none else aliases k) }
            else s1.files p }) := by
  have hfr := getPkgVersion_frame e V s
  rw [hname] at hfr
  simp only at hfr
  have hpath : s1.projectPath = s.projectPath := by rw [hfr]; exact (getPkgVersions_frame e s).2
  have hread1 : readProject s = (Res.ok proj, s) := by
    unfold readProject; rw [hread]
  unfold removeDependencyFromProjectFile
  rw [bind_of_ok hread1, bind_of_ok hname]
  simp only [hdirs]
  have hw : e.writeError s1.projectPath = none := by rw [hpath]; exact hwrite
  simp only [writeProject, hw, removeLoop, hpath, hwrite]

/-- C6: for a manifest with a first package directory `dir` and an alias
table `aliases`, and a version identifier `V` whose owning package name
resolves to `pkgVersion.Name`, `upsertDependencyToProjectFile` succeeds and the
manifest it writes is the original except that the dependency list of the first
package directory is the original one if it had an entry with that name and
otherwise the original one with one entry of that name appended, and the alias
table maps that name to `V` and every other key as before; no other file is
touched. -/
theorem upsertDependencyToProjectFile_writes (e : Env) (s s1 : St) (org V : String)
    (proj : SfdxProject) (dir : PackageDirectory) (dirs : List PackageDirectory)
    (aliases : StrMap) (pkgVersion : SubscriberPkgVersion)
    (hread : s.files s.projectPath = Except.ok proj)
    (hdirs : proj.PackageDirectories = dir :: dirs)
    (hal : proj.PackageAliases = some aliases)
    (hname : getSubscriberPkgVersion e org V s = (Res.ok pkgVersion, s1))
    (hwrite : e.writeError s.projectPath = none) :
    ∃ s2, upsertDependencyToProjectFile e org V s = (Res.ok (), s2) ∧
      manifestAt s2 = some
        { proj with
          PackageDirectories :=
            { dir with
              Dependencies :=
                if (∃ dep ∈ dir.Dependencies, dep.PackageName = pkgVersion.Name) then
                  dir.Dependencies
                else dir.Dependencies ++ [{ PackageName := pkgVersion.Name }] } :: dirs,
          PackageAliases := some (fun k => if k = pkgVersion.Name then some V else aliases k) } ∧
      ∀ p, p ≠ s.projectPath → s2.files p = s.files p := by
  obtain ⟨tr, hfr⟩ := getSubscriberPkgVersion_frame e org V s
  rw [hname] at hfr
  simp only at hfr
  refine ⟨_, upsert_run e s s1 org V proj dir dirs aliases pkgVersion hread hdirs hal hname hwrite,
    ?_, ?_⟩
  · simp [manifestAt, hfr]
  · intro p hp
    simp [hp]

/-- Witness of C6: in the sample world the manifest depends on `B` only;
upserting version `04tA1` of package `A` writes the dependency list `B, A`
and adds the alias `A`, keeping the alias `B`. -/
theorem upsertDependencyToProjectFile_writes_witness :
    ∃ s2, upsertDependencyToProjectFile demoEnv "admin@hub.org" "04tA1" demoCached = (Res.ok (), s2) ∧
      manifestDeps s2 = some [{ PackageName := "B" }, { PackageName := "A" }] ∧
      manifestAlias s2 "A" = some "04tA1" ∧ manifestAlias s2 "B" = some "04tB1" := by
  obtain ⟨s2, hrun, hman, _⟩ :=
    upsertDependencyToProjectFile_writes demoEnv demoCached
      (getSubscriberPkgVersion demoEnv "admin@hub.org" "04tA1" demoCached).2
      "admin@hub.org" "04tA1" demoProject
      { Path := "force-app", Default := true, PackageName := "app", VersionName := "v1",
        VersionNumber := "1.0.0.NEXT", Dependencies := [{ PackageName := "B" }] }
      [] (fun k => if k = "B" then some "04tB1" else none)
      { demoRecord "04tA1" "03304tA1" [] with Name := "A" }
      rfl rfl rfl (Prod.ext (by decide!) rfl) rfl
  refine ⟨s2, hrun, ?_, ?_, ?_⟩
  · rw [manifestDeps, hman]; decide!
  · rw [manifestAlias, hman]; decide!
  · rw [manifestAlias, hman]; decide!

/-- C7, what the code does: `removeDependencyFromProjectFile` succeeds under
the conditions of the claim and writes an empty dependency list for the first
package directory, whatever that list held. -/
theorem removeDependencyFromProjectFile_empties (e : Env) (s s1 : St) (V : String)
    (proj : SfdxProject) (dir : PackageDirectory) (dirs : List PackageDirectory)
    (pkgVersion : PkgVersion)
    (hread : s.files s.projectPath = Except.ok proj)
    (hdirs : proj.PackageDirectories = dir :: dirs)
    (hname : getPkgVersion e V s = (Res.ok pkgVersion, s1))
    (hwrite : e.writeError s.projectPath = none) :
    ∃ s2, removeDependencyFromProjectFile e V s = (Res.ok (), s2) ∧ manifestDeps s2 = some [] := by
  have hfr := getPkgVersion_frame e V s
  rw [hname] at hfr
  simp only at hfr
  have hpath : s1.projectPath = s.projectPath := by rw [hfr]; exact (getPkgVersions_frame e s).2
  refine ⟨_, remove_run e s s1 V proj dir dirs pkgVersion hread hdirs hname hwrite, ?_⟩
  simp [manifestDeps, manifestAt, hpath, firstDeps]

/-- Witness of the theorem of C7: the manifest depends on `A` and `B`;
removing version `04tA1` of package `A` writes the empty dependency list, so
the entry `B` is lost. -/
theorem removeDependencyFromProjectFile_empties_witness :
    manifestDeps demoCachedAB = some [{ PackageName := "A" }, { PackageName := "B" }] ∧
      ∃ s2, removeDependencyFromProjectFile demoEnv "04tA1" demoCachedAB = (Res.ok (), s2) ∧
        manifestDeps s2 = some [] :=
  ⟨by decide!,
    removeDependencyFromProjectFile_empties demoEnv demoCachedAB demoCachedAB "04tA1" demoProjectAB
      { Path := "force-app", Default := true, PackageName := "app", VersionName := "v1",
        VersionNumber := "1.0.0.NEXT",
        Dependencies := [{ PackageName := "A" }, { PackageName := "B" }] }
      []
      { Name := "A", ID := "04tA1", PackageID := "0HoA", VersionName := "first", Version := "1.0" }
      rfl rfl rfl rfl⟩

/-- C8, what the code does: the manifest depends on `B` only and has neither
an entry nor an alias for `A`; upsert of version `04tA1` of `A` followed by
its removal both succeed and leave the empty dependency list, not the original
list `B`. -/
theorem upsert_then_remove_loses_entries :
    manifestDeps demoCached = some [{ PackageName := "B" }] ∧
      manifestAlias demoCached "A" = none ∧
      (upsertDependencyToProjectFile demoEnv "admin@hub.org" "04tA1" demoCached).1 = Res.ok () ∧
      (removeDependencyFromProjectFile demoEnv "04tA1"
        (upsertDependencyToProjectFile demoEnv "admin@hub.org" "04tA1" demoCached).2).1 = Res.ok () ∧
      manifestDeps (removeDependencyFromProjectFile demoEnv "04tA1"
        (upsertDependencyToProjectFile demoEnv "admin@hub.org" "04tA1" demoCached).2).2 = some [] :=
  ⟨by decide!, by decide!, by decide!, by decide!, by decide!⟩

theorem consistent_demoProjectAB : Consistent demoProjectAB := by
  intro k
  by_cases hA : k = "A"
  · subst hA; simp [firstDeps, aliasOf, demoProjectAB]
  · by_cases hB : k = "B"
    · subst hB; simp [firstDeps, aliasOf, demoProjectAB]
    · simp [firstDeps, aliasOf, demoProjectAB, hA, hB, Ne.symm hA, Ne.symm hB]

/-- C9, what the code does: the manifest `demoProjectAB` (dependencies `A`
and `B`, aliases `A` and `B`) is consistent; `removeDependencyFromProjectFile`
for version `04tA1` of `A` succeeds and writes a manifest with no dependency
entry but with the alias `B`, which is not consistent. -/
theorem remove_breaks_consistency :
    manifestAt demoCachedAB = some demoProjectAB ∧ Consistent demoProjectAB ∧
      ∃ s2 proj2, removeDependencyFromProjectFile demoEnv "04tA1" demoCachedAB = (Res.ok (), s2) ∧
        manifestAt s2 = some proj2 ∧ firstDeps proj2 = [] ∧ aliasOf proj2 "B" = some "04tB1" ∧
        ¬ Consistent proj2 := by
  refine ⟨rfl, consistent_demoProjectAB, _, _,
    remove_run demoEnv demoCachedAB demoCachedAB "04tA1" demoProjectAB
      { Path := "force-app", Default := true, PackageName := "app", VersionName := "v1",
        VersionNumber := "1.0.0.NEXT",
        Dependencies := [{ PackageName := "A" }, { PackageName := "B" }] }
      []
      { Name := "A", ID := "04tA1", PackageID := "0HoA", VersionName := "first", Version := "1.0" }
      rfl rfl rfl rfl, rfl, rfl, by decide!, ?_⟩
  intro hcons
  have h := (hcons "B").mpr (by decide!)
  obtain ⟨dep, hdep, _⟩ := h
  exact absurd hdep (by simp [firstDeps])

/-- The upsert half of C9: `upsertDependencyToProjectFile` writes a consistent
manifest when the manifest it read was consistent. -/
theorem upsert_preserves_consistency (e : Env) (s s1 : St) (org V : String)
    (proj : SfdxProject) (dir : PackageDirectory) (dirs : List PackageDirectory)
    (aliases : StrMap) (pkgVersion : SubscriberPkgVersion)
    (hread : s.files s.projectPath = Except.ok proj)
    (hdirs : proj.PackageDirectories = dir :: dirs)
    (hal : proj.PackageAliases = some aliases)
    (hname : getSubscriberPkgVersion e org V s = (Res.ok pkgVersion, s1))
    (hwrite : e.writeError s.projectPath = none)
    (hcons : Consistent proj) :
    ∃ s2 proj2, upsertDependencyToProjectFile e org V s = (Res.ok (), s2) ∧
      manifestAt s2 = some proj2 ∧ Consistent proj2 := by
  obtain ⟨tr, hfr⟩ := getSubscriberPkgVersion_frame e org V s
  rw [hname] at hfr
  simp only at hfr
  refine ⟨_,
    { proj with
      PackageDirectories :=
        { dir with
          Dependencies :=
            if (∃ dep ∈ dir.Dependencies, dep.PackageName = pkgVersion.Name) then
              dir.Dependencies
            else dir.Dependencies ++ [{ PackageName := pkgVersion.Name }] } :: dirs,
      PackageAliases := some (fun k => if k = pkgVersion.Name then some V else aliases k) },
    upsert_run e s s1 org V proj dir dirs aliases pkgVersion hread hdirs hal hname hwrite,
    by simp [manifestAt, hfr], ?_⟩
  intro k
  have hk := hcons k
  simp only [firstDeps, aliasOf, hdirs, hal] at hk
  simp only [firstDeps, aliasOf]
  by_cases hkn : k = pkgVersion.Name
  · subst hkn
    simp only [if_true, Option.isSome_some, iff_true]
    by_cases hex : ∃ dep ∈ dir.Dependencies, dep.PackageName = pkgVersion.Name
    · rw [if_pos hex]; exact hex
    · rw [if_neg hex]
      exact ⟨{ PackageName := pkgVersion.Name }, by simp, rfl⟩
  · simp only [if_neg hkn]
    rw [← hk]
    by_cases hex : ∃ dep ∈ dir.Dependencies, dep.PackageName = pkgVersion.Name
    · rw [if_pos hex]
    · rw [if_neg hex]
      constructor
      · rintro ⟨dep, hdep, hdk⟩
        rcases List.mem_append.mp hdep with h | h
        · exact ⟨dep, h, hdk⟩
        · simp at h
          subst h
          exact absurd hdk.symm hkn
      · rintro ⟨dep, hdep, hdk⟩
        exact ⟨dep, List.mem_append.mpr (Or.inl hdep), hdk⟩

/-! ## Install orchestrator: steps of `InstallPackage` when the calls succeed -/

/-- C2, what the code does: version `04tA1` has no dependencies and is not
installed beforehand, version `04tB1` is; every call succeeds and the
installed-package query answers with the true state of the environment. Two
calls of `InstallPackage` in succession both return without error, the package
is installed in the environment after the first, and the install action for
`04tA1` is invoked twice: the second call tests the list cached by the first. -/
theorem installPackage_twice_installs_twice :
    (demoStartWithB.installed "admin@hub.org").any
        (fun r => r.SubscriberPackageVersionID == "04tA1") = false ∧
      (InstallPackage demoEnv 1 "admin@hub.org" "04tA1" demoStartWithB).1 = Res.ok () ∧
      ((InstallPackage demoEnv 1 "admin@hub.org" "04tA1" demoStartWithB).2.installed
          "admin@hub.org").any (fun r => r.SubscriberPackageVersionID == "04tA1") = true ∧
      (InstallPackage demoEnv 1 "admin@hub.org" "04tA1"
        (InstallPackage demoEnv 1 "admin@hub.org" "04tA1" demoStartWithB).2).1 = Res.ok () ∧
      installsOf (InstallPackage demoEnv 1 "admin@hub.org" "04tA1"
        (InstallPackage demoEnv 1 "admin@hub.org" "04tA1" demoStartWithB).2).2.trace =
        ["04tA1", "04tA1"] :=
  ⟨by decide!, by decide!, by decide!, by decide!, by decide!⟩

/-! ## Caching of the environment list -/

theorem getOrgUserID_state (e : Env) (als : String) (s : St) :
    (getOrgUserID e als s).2 = s ∨ (getOrgUserID e als s).2 = (getOrgs e s).2 := by
  unfold getOrgUserID
  by_cases hat : Contains als "@" = true
  · rw [if_pos hat]; exact Or.inl rfl
  · rw [if_neg hat]
    refine Or.inr ?_
    simp only [bind_apply, M.bind]
    generalize getOrgs e s = r
    obtain ⟨res, s1⟩ := r
    cases res with
    | ok u =>
      simp only
      cases orgLoop (HasPrefix als orgPrefix) als s1.orgs with
      | some u => rfl
      | none =>
        cases scrOrgLoop (HasPrefix als orgPrefix) als s1.scrOrgs <;> rfl
    | err msg => rfl
    | panicked msg => rfl
    | outOfFuel => rfl

theorem getOrgs_cached (e : Env) (s : St) (h : s.orgs ≠ []) : (getOrgs e s).2 = s := by
  unfold getOrgs
  have hlen : s.orgs.length > 0 := List.length_pos.mpr h
  rw [if_pos hlen]

theorem getOrgs_potential (e : Env) (s : St) (resp : OrgListResult)
    (hresp : e.orgList = Except.ok resp) (hne : resp.NonScratchOrgs ≠ []) :
    orgListCalls (getOrgs e s).2.trace + (if (getOrgs e s).2.orgs = [] then 1 else 0) ≤
      orgListCalls s.trace + (if s.orgs = [] then 1 else 0) := by
  by_cases h : s.orgs = []
  · unfold getOrgs
    have hlen : ¬ s.orgs.length > 0 := by simp [h]
    rw [if_neg hlen]
    cases hcli : e.sfdxOnPath with
    | false =>
      simp [bind_apply, M.bind, CheckCli, hcli, fail, h]
    | true =>
      simp [bind_apply, M.bind, CheckCli, hcli, logCall, liftExcept, hresp, M.pure, pure, hne, h,
        orgListCalls]
  · rw [getOrgs_cached e s h]

theorem getOrgUserID_potential (e : Env) (als : String) (s : St) (resp : OrgListResult)
    (hresp : e.orgList = Except.ok resp) (hne : resp.NonScratchOrgs ≠ []) :
    orgListCalls (getOrgUserID e als s).2.trace +
        (if (getOrgUserID e als s).2.orgs = [] then 1 else 0) ≤
      orgListCalls s.trace + (if s.orgs = [] then 1 else 0) := by
  rcases getOrgUserID_state e als s with h | h
  · rw [h]
  · rw [h]; exact getOrgs_potential e s resp hresp hne

theorem resolveEach_potential (e : Env) (resp : OrgListResult)
    (hresp : e.orgList = Except.ok resp) (hne : resp.NonScratchOrgs ≠ []) :
    ∀ (inputs : List String) (s : St),
      orgListCalls (resolveEach e inputs s).trace +
          (if (resolveEach e inputs s).orgs = [] then 1 else 0) ≤
        orgListCalls s.trace + (if s.orgs = [] then 1 else 0) := by
  intro inputs
  induction inputs with
  | nil => intro s; exact le_refl _
  | cons a rest ih =>
    intro s
    exact le_trans (ih _) (getOrgUserID_potential e a s resp hresp hne)

theorem resolveEach_cached (e : Env) :
    ∀ (inputs : List String) (s : St), s.orgs ≠ [] → resolveEach e inputs s = s := by
  intro inputs
  induction inputs with
  | nil => intro s _; rfl
  | cons a rest ih =>
    intro s h
    have hs : (getOrgUserID e a s).2 = s := by
      rcases getOrgUserID_state e a s with h1 | h1
      · exact h1
      · rw [h1]; exact getOrgs_cached e s h
    show resolveEach e rest (getOrgUserID e a s).2 = s
    rw [hs]
    exact ih s h

/-- C11 as stated fails: `force:org:list` succeeds with an empty persistent
list and one ephemeral environment with alias `dev`. Two resolutions of `dev`
(an input without `@`) in one run both return the login username of the
ephemeral environment, and the query is invoked twice. -/
theorem getOrgUserID_refetch_counterexample :
    scratchOnlyEnv.orgList =
        Except.ok { NonScratchOrgs := [], ScratchOrgs := [demoScratch] } ∧
      Contains "dev" "@" = false ∧
      orgListCalls demoStart.trace = 0 ∧
      (getOrgUserID scratchOnlyEnv "dev" demoStart).1 = Res.ok "test@scratch.org" ∧
      (getOrgUserID scratchOnlyEnv "dev"
        (getOrgUserID scratchOnlyEnv "dev" demoStart).2).1 = Res.ok "test@scratch.org" ∧
      orgListCalls (resolveEach scratchOnlyEnv ["dev", "dev"] demoStart).trace = 2 :=
  ⟨rfl, by decide!, by decide!, by decide!, by decide!, by decide!⟩

/-- C11, amended: when `force:org:list` succeeds with a non-empty persistent
list (and any ephemeral list), every sequence of `getOrgUserID` calls in one
run, from any state, invokes the query at most once; and from a state whose
cached persistent list is non-empty (after a fetch) the sequence changes
nothing, so it invokes no query and is answered from the cache. -/
theorem getOrgUserID_fetches_once (e : Env) (s : St) (resp : OrgListResult)
    (inputs : List String)
    (hresp : e.orgList = Except.ok resp) (hne : resp.NonScratchOrgs ≠ []) :
    orgListCalls (resolveEach e inputs s).trace ≤ orgListCalls s.trace + 1 ∧
      (s.orgs ≠ [] → resolveEach e inputs s = s) := by
  refine ⟨?_, resolveEach_cached e inputs s⟩
  have h := resolveEach_potential e resp hresp hne inputs s
  have h1 : (if s.orgs = [] then 1 else 0) ≤ 1 := by split <;> omega
  omega

/-- Witness of C11, amended: in the sample world the persistent list has one
environment; three resolutions from the start of a run, by alias, by
identifier and of an unknown alias, invoke the query once. -/
theorem getOrgUserID_fetches_once_witness :
    (orgListCalls (resolveEach demoEnv ["dev", "00Dscr", "nobody"] demoStart).trace ≤
        orgListCalls demoStart.trace + 1 ∧
      (demoStart.orgs ≠ [] → resolveEach demoEnv ["dev", "00Dscr", "nobody"] demoStart = demoStart)) ∧
      orgListCalls (resolveEach demoEnv ["dev", "00Dscr", "nobody"] demoStart).trace = 1 :=
  ⟨getOrgUserID_fetches_once demoEnv demoStart
      { NonScratchOrgs := [demoHub], ScratchOrgs := [demoScratch] }
      ["dev", "00Dscr", "nobody"] rfl (by decide!),
    by decide!⟩

/-! ## Manifests without package directories or alias table -/

/-- C12, what the code does: for a manifest that reads and decodes and a
version identifier whose package name lookup succeeds, leaving state `s1`,
`upsertDependencyToProjectFile` panics with an index out of range when the
manifest has no package directory, and with a write to a nil map when it has
one but no alias table; in both cases nothing is written. -/
theorem upsertDependencyToProjectFile_panics (e : Env) (s s1 : St) (org V : String)
    (proj : SfdxProject) (pkgVersion : SubscriberPkgVersion)
    (hread : s.files s.projectPath = Except.ok proj)
    (hname : getSubscriberPkgVersion e org V s = (Res.ok pkgVersion, s1)) :
    (proj.PackageDirectories = [] →
      upsertDependencyToProjectFile e org V s = (Res.panicked "index out of range [0]", s1)) ∧
    (proj.PackageDirectories ≠ [] → proj.PackageAliases = none →
      upsertDependencyToProjectFile e org V s =
        (Res.panicked "assignment to entry in nil map", s1)) := by
  have hread1 : readProject s = (Res.ok proj, s) := by
    unfold readProject; rw [hread]
  constructor
  · intro hdirs
    unfold upsertDependencyToProjectFile
    rw [bind_of_ok hread1, bind_of_ok hname]
    simp only [hdirs]
    rfl
  · intro hdirs hal
    unfold upsertDependencyToProjectFile
    rw [bind_of_ok hread1, bind_of_ok hname]
    cases hd : proj.PackageDirectories with
    | nil => exact absurd hd hdirs
    | cons dir dirs =>
      simp only [hal]
      cases findDep pkgVersion.Name dir.Dependencies <;> rfl

/-- Witness of the theorem of C12: the manifest of a project without
`packageAliases` field, and a manifest without package directories; upserting
version `04tA1`, whose package name lookup succeeds, panics on both and the
manifest on disk stays as it was. -/
theorem upsertDependencyToProjectFile_panics_witness :
    upsertDependencyToProjectFile demoEnv "admin@hub.org" "04tA1" demoCachedNoAliases =
        (Res.panicked "assignment to entry in nil map",
          (getSubscriberPkgVersion demoEnv "admin@hub.org" "04tA1" demoCachedNoAliases).2) ∧
      upsertDependencyToProjectFile demoEnv "admin@hub.org" "04tA1" demoCachedNoDirs =
        (Res.panicked "index out of range [0]",
          (getSubscriberPkgVersion demoEnv "admin@hub.org" "04tA1" demoCachedNoDirs).2) ∧
      (getSubscriberPkgVersion demoEnv "admin@hub.org" "04tA1" demoCachedNoAliases).1 =
        Res.ok { demoRecord "04tA1" "03304tA1" [] with Name := "A" } ∧
      manifestDeps (upsertDependencyToProjectFile demoEnv "admin@hub.org" "04tA1"
        demoCachedNoAliases).2 = some [] :=
  ⟨(upsertDependencyToProjectFile_panics demoEnv demoCachedNoAliases
      (getSubscriberPkgVersion demoEnv "admin@hub.org" "04tA1" demoCachedNoAliases).2
      "admin@hub.org" "04tA1" demoProjectNoAliases
      { demoRecord "04tA1" "03304tA1" [] with Name := "A" }
      rfl (Prod.ext (by decide!) rfl)).2 (by decide!) rfl,
    (upsertDependencyToProjectFile_panics demoEnv demoCachedNoDirs
      (getSubscriberPkgVersion demoEnv "admin@hub.org" "04tA1" demoCachedNoDirs).2
      "admin@hub.org" "04tA1" demoProjectNoDirs
      { demoRecord "04tA1" "03304tA1" [] with Name := "A" }
      rfl (Prod.ext (by decide!) rfl)).1 rfl,
    by decide!, by decide!⟩

/-! ## Properties of the walk of the specification -/

/-- The stale list of installed packages (the defect of C2) on a shared
dependency: in `diamondEnv` version `D4` is installed as a dependency of `D1`
and again as a dependency of `D2`, the second time after `D1`. -/
theorem installPackage_diamond_repeats :
    (InstallPackage diamondEnv 3 "admin@hub.org" "04tP" demoStart).1 = Res.ok () ∧
      installsOf (InstallPackage diamondEnv 3 "admin@hub.org" "04tP" demoStart).2.trace =
        ["04tD3", "04tD4", "04tD1", "04tD4", "04tD2", "04tP"] :=
  ⟨by decide!, by decide!⟩

end Dxpm
